import Mathlib

/-!
Verification of the `amplifier-module-hooks-cxdb-events` repository: a shallow
embedding in Lean 4 of its wire codec (`protocol.py`), payload serialization
(`protocol.py` / `schema.py`), variant deduplicator (`types.py`), turn
accumulator (`turns.py`), retry buffer (`buffer.py`) and event router
(`hook.py`), together with theorems settling the specification's claims.

Machine integers are modelled as `Nat` (Python integers are unbounded; the
struct-packing range constraints appear as explicit hypotheses).  Bytes are
modelled as `Nat` values below 256.  Fallible operations return `Except` /
`Option`; the behaviour of the external store (the TCP peer) is modelled by
explicit oracles quantified over in the theorems.
-/

namespace CXDB

/-! ## Wire codec (`protocol.py`: `encode_frame`, `decode_frame`)

`struct.pack`/`struct.unpack` with format `<IHHQ` (all little-endian) are
modelled by `packLE w n` (little-endian, `w` bytes) and `unpackLE`.
`struct.pack` rejects out-of-range values, so the embedding is used under the
corresponding range hypotheses. -/

/-- Little-endian packing of `n` into `w` bytes (model of `struct.pack`). -/
def packLE : Nat → Nat → List Nat
  | 0, _ => []
  | w + 1, n => n % 256 :: packLE w (n / 256)

/-- Little-endian unpacking of a byte list (model of `struct.unpack`). -/
def unpackLE : List Nat → Nat
  | [] => 0
  | b :: rest => b + 256 * unpackLE rest

theorem packLE_length (w n : Nat) : (packLE w n).length = w := by
  induction w generalizing n with
  | zero => rfl
  | succ w ih => simp [packLE, ih]

theorem unpackLE_packLE (w n : Nat) : unpackLE (packLE w n) = n % 256 ^ w := by
  induction w generalizing n with
  | zero => simp [packLE, unpackLE, Nat.mod_one]
  | succ w ih =>
      simp only [packLE, unpackLE, ih]
      rw [Nat.pow_succ, Nat.mul_comm (256 ^ w) 256, Nat.mod_mul]

/-- Frame header size in bytes (`FRAME_HEADER_SIZE = 16`). -/
def FRAME_HEADER_SIZE : Nat := 16

/-- `encode_frame(msg_type, request_id, payload, flags=0)`: header
`len(4B) + msg_type(2B) + flags(2B) + req_id(8B)` followed by the payload. -/
def encode_frame (msg_type : Nat) (request_id : Nat) (payload : List Nat)
    (flags : Nat := 0) : List Nat :=
  packLE 4 payload.length ++ packLE 2 msg_type ++ packLE 2 flags ++
    packLE 8 request_id ++ payload

/-- `decode_frame(data) -> (msg_type, flags, request_id, payload)`; raises
`ValueError` (modelled as `.error`) when the data is shorter than a header or
the declared payload is incomplete. -/
def decode_frame (data : List Nat) : Except String (Nat × Nat × Nat × List Nat) :=
  if data.length < FRAME_HEADER_SIZE then
    .error "Frame too short"
  else
    let payload_len := unpackLE (data.take 4)
    let msg_type := unpackLE ((data.drop 4).take 2)
    let flags := unpackLE ((data.drop 6).take 2)
    let request_id := unpackLE ((data.drop 8).take 8)
    let payload := (data.drop FRAME_HEADER_SIZE).take payload_len
    if payload.length < payload_len then
      .error "Incomplete payload"
    else
      .ok (msg_type, flags, request_id, payload)

theorem encode_frame_length (t rid f : Nat) (p : List Nat) :
    (encode_frame t rid p f).length = 16 + p.length := by
  simp [encode_frame, packLE_length]
  omega

theorem encode_frame_take_header (t rid f : Nat) (p : List Nat) :
    (encode_frame t rid p f).take 4 = packLE 4 p.length ∧
    ((encode_frame t rid p f).drop 4).take 2 = packLE 2 t ∧
    ((encode_frame t rid p f).drop 6).take 2 = packLE 2 f ∧
    ((encode_frame t rid p f).drop 8).take 8 = packLE 8 rid ∧
    (encode_frame t rid p f).drop 16 = p := by
  simp [encode_frame, packLE]

/-- **C8** — Frame roundtrip: for every message type, request id, flags value
and payload byte string (within the `struct` ranges `u16`, `u16`, `u64`, and
payload length below `2^32`), decoding an encoded frame returns exactly the
encoded components: `decode_frame (encode_frame t id p f) = (t, f, id, p)`. -/
theorem frame_roundtrip (t f rid : Nat) (p : List Nat)
    (ht : t < 2 ^ 16) (hf : f < 2 ^ 16) (hr : rid < 2 ^ 64)
    (hp : p.length < 2 ^ 32) :
    decode_frame (encode_frame t rid p f) = .ok (t, f, rid, p) := by
  obtain ⟨h4, ht2, hf2, hr8, h16⟩ := encode_frame_take_header t rid f p
  have hlen : (encode_frame t rid p f).length = 16 + p.length :=
    encode_frame_length t rid f p
  unfold decode_frame FRAME_HEADER_SIZE
  rw [if_neg (by omega)]
  simp only [h4, ht2, hf2, hr8, h16, unpackLE_packLE]
  have e1 : p.length % 256 ^ 4 = p.length := by
    rw [show (256 : Nat) ^ 4 = 2 ^ 32 by norm_num]
    exact Nat.mod_eq_of_lt hp
  have e2 : t % 256 ^ 2 = t := by
    rw [show (256 : Nat) ^ 2 = 2 ^ 16 by norm_num]
    exact Nat.mod_eq_of_lt ht
  have e3 : f % 256 ^ 2 = f := by
    rw [show (256 : Nat) ^ 2 = 2 ^ 16 by norm_num]
    exact Nat.mod_eq_of_lt hf
  have e4 : rid % 256 ^ 8 = rid := by
    rw [show (256 : Nat) ^ 8 = 2 ^ 64 by norm_num]
    exact Nat.mod_eq_of_lt hr
  rw [e1, e2, e3, e4, List.take_of_length_le le_rfl]
  rw [if_neg (by omega)]

/-- Witness for C8 at a concrete frame. -/
theorem frame_roundtrip_witness :
    decode_frame (encode_frame 5 7 [42, 255] 3) = .ok (5, 3, 7, [42, 255]) :=
  frame_roundtrip 5 3 7 [42, 255] (by norm_num) (by norm_num) (by norm_num)
    (by norm_num)

end CXDB

namespace CXDB

/-! ## Payload serialization (`protocol.py`: `serialize_payload`;
`schema.py`: `serialize_envelope`)

Payload values are the JSON-like values the hook actually stores: integers,
byte strings, sequences, and mappings with integer tag keys.  A Python `dict`
is modelled as a `List (Nat × Val)` in *insertion order* (msgpack serializes a
dict in iteration = insertion order).  `msgpack.packb(..., use_bin_type=True)`
is modelled by `packVal`, the msgpack encoding of that value grammar
(big-endian length/width prefixes per the msgpack spec).  The external BLAKE3
hash is an explicit function parameter. -/

/-- A msgpack-encodable payload value. -/
inductive Val where
  | int (n : Nat)
  | str (bytes : List Nat)
  | arr (items : List Val)
  | map (entries : List (Nat × Val))

/-- msgpack unsigned-integer encoding (positive fixint / uint8/16/32/64). -/
def packNat (n : Nat) : List Nat :=
  if n < 128 then [n]
  else if n < 256 then [0xcc, n]
  else if n < 65536 then [0xcd, n / 256, n % 256]
  else if n < 4294967296 then
    [0xce, n / 16777216 % 256, n / 65536 % 256, n / 256 % 256, n % 256]
  else
    [0xcf, n / 72057594037927936 % 256, n / 281474976710656 % 256,
     n / 1099511627776 % 256, n / 4294967296 % 256, n / 16777216 % 256,
     n / 65536 % 256, n / 256 % 256, n % 256]

/-- msgpack bin header (`use_bin_type=True` encodes Python `bytes` as bin8/16/32). -/
def packBinHeader (len : Nat) : List Nat :=
  if len < 256 then [0xc4, len]
  else if len < 65536 then [0xc5, len / 256, len % 256]
  else [0xc6, len / 16777216 % 256, len / 65536 % 256, len / 256 % 256, len % 256]

/-- msgpack array header (fixarray / array16 / array32). -/
def packArrHeader (len : Nat) : List Nat :=
  if len < 16 then [0x90 + len]
  else if len < 65536 then [0xdc, len / 256, len % 256]
  else [0xdd, len / 16777216 % 256, len / 65536 % 256, len / 256 % 256, len % 256]

/-- msgpack map header (fixmap / map16 / map32). -/
def packMapHeader (len : Nat) : List Nat :=
  if len < 16 then [0x80 + len]
  else if len < 65536 then [0xde, len / 256, len % 256]
  else [0xdf, len / 16777216 % 256, len / 65536 % 256, len / 256 % 256, len % 256]

mutual

/-- msgpack encoding of a `Val`.  A map's entries are emitted in the order of
the entry list — exactly like `msgpack.packb` on a Python dict, which emits
entries in the dict's insertion order. -/
def packVal : Val → List Nat
  | .int n => packNat n
  | .str b => packBinHeader b.length ++ b
  | .arr xs => packArrHeader xs.length ++ packValList xs
  | .map es => packMapHeader es.length ++ packPairList es

def packValList : List Val → List Nat
  | [] => []
  | v :: rest => packVal v ++ packValList rest

def packPairList : List (Nat × Val) → List Nat
  | [] => []
  | (k, v) :: rest => packNat k ++ (packVal v ++ packPairList rest)

end

/-- Model of Python's `sorted(payload.items())`: a stable sort of the entry
list by key.  (Python compares tuples componentwise, but a dict's keys are
unique, so only the keys decide.) -/
def sortPairs (p : List (Nat × Val)) : List (Nat × Val) :=
  List.insertionSort (fun a b => a.1 ≤ b.1) p

instance : IsTotal (Nat × Val) (fun a b => a.1 ≤ b.1) :=
  ⟨fun a b => Nat.le_total a.1 b.1⟩

instance : IsTrans (Nat × Val) (fun a b => a.1 ≤ b.1) :=
  ⟨fun _ _ _ => Nat.le_trans⟩

/-- `serialize_payload(payload)`: sorts the top-level entries by key, encodes
the sorted mapping as msgpack, and returns the bytes together with their
BLAKE3 hash.  BLAKE3 (external library code) is the parameter `hash`. -/
def serialize_payload (hash : List Nat → List Nat) (payload : List (Nat × Val)) :
    List Nat × List Nat :=
  let msgpack_bytes := packVal (.map (sortPairs payload))
  (msgpack_bytes, hash msgpack_bytes)

/-- `serialize_envelope(envelope)` (`schema.py`): sorts the top-level entries
by key and encodes as msgpack. -/
def serialize_envelope (envelope : List (Nat × Val)) : List Nat :=
  packVal (.map (sortPairs envelope))

end CXDB

namespace CXDB

instance : IsAntisymm (Nat × Val) (fun a b => a.1 < b.1) :=
  ⟨fun _ _ h1 h2 => absurd h2 (Nat.lt_asymm h1)⟩

theorem sortPairs_eq_of_perm {p q : List (Nat × Val)}
    (hnd : (p.map Prod.fst).Nodup) (hperm : p.Perm q) :
    sortPairs p = sortPairs q := by
  have hp1 : (sortPairs p).Perm p := List.perm_insertionSort _ p
  have hq1 : (sortPairs q).Perm q := List.perm_insertionSort _ q
  have hpq : (sortPairs p).Perm (sortPairs q) :=
    hp1.trans (hperm.trans hq1.symm)
  have hs1 : List.Sorted (fun a b : Nat × Val => a.1 ≤ b.1) (sortPairs p) :=
    List.sorted_insertionSort _ p
  have hs2 : List.Sorted (fun a b : Nat × Val => a.1 ≤ b.1) (sortPairs q) :=
    List.sorted_insertionSort _ q
  have hnd1 : ((sortPairs p).map Prod.fst).Nodup :=
    ((hp1.map Prod.fst).nodup_iff).mpr hnd
  have hndq : (q.map Prod.fst).Nodup := ((hperm.map Prod.fst).nodup_iff).mp hnd
  have hnd2 : ((sortPairs q).map Prod.fst).Nodup :=
    ((hq1.map Prod.fst).nodup_iff).mpr hndq
  have hne1 : (sortPairs p).Pairwise (fun a b => a.1 ≠ b.1) :=
    List.pairwise_map.mp hnd1
  have hne2 : (sortPairs q).Pairwise (fun a b => a.1 ≠ b.1) :=
    List.pairwise_map.mp hnd2
  have hlt1 : List.Sorted (fun a b : Nat × Val => a.1 < b.1) (sortPairs p) :=
    (hs1.and hne1).imp fun h => lt_of_le_of_ne h.1 h.2
  have hlt2 : List.Sorted (fun a b : Nat × Val => a.1 < b.1) (sortPairs q) :=
    (hs2.and hne2).imp fun h => lt_of_le_of_ne h.1 h.2
  exact List.eq_of_perm_of_sorted hpq hlt1 hlt2

/-- **C5 (amended)** — Deterministic serialization at the top level: for any
two payload mappings with the same top-level key→value pairs (distinct keys)
presented in different insertion orders, `serialize_payload` produces
byte-identical output and identical hashes, for every hash function. -/
theorem serialize_payload_deterministic (hash : List Nat → List Nat)
    (p q : List (Nat × Val)) (hnd : (p.map Prod.fst).Nodup) (hperm : p.Perm q) :
    serialize_payload hash p = serialize_payload hash q := by
  have h := sortPairs_eq_of_perm hnd hperm
  simp [serialize_payload, h]

/-- Witness for the amended C5: two orders of the same two-entry payload
serialize identically. -/
theorem serialize_payload_deterministic_witness :
    serialize_payload (fun b => b) [(2, Val.int 5), (1, Val.str [97])] =
      serialize_payload (fun b => b) [(1, Val.str [97]), (2, Val.int 5)] :=
  serialize_payload_deterministic (fun b => b) _ _ (by decide)
    (List.Perm.swap _ _ _)

/-- **C5 counterexample** — the claim as stated (determinism "including within
nested mappings") fails: two payloads that are equal as key→value mappings at
every level — the top level is identical and the nested mapping's entry lists
are permutations of one another — serialize to different bytes, because
`serialize_payload` sorts only the top-level keys while msgpack emits a nested
dict's entries in its insertion order. -/
theorem serialize_payload_nested_counterexample :
    ([((1 : Nat), Val.int 1), (2, Val.int 2)]).Perm
        [((2 : Nat), Val.int 2), (1, Val.int 1)] ∧
      (serialize_payload (fun _ => [])
          [(10, Val.map [(1, .int 1), (2, .int 2)])]).1 ≠
        (serialize_payload (fun _ => [])
          [(10, Val.map [(2, .int 2), (1, .int 1)])]).1 :=
  ⟨List.Perm.swap _ _ _, by decide⟩

end CXDB

namespace CXDB

/-! ## Event variant deduplication (`types.py`)

Python strings are sequences of characters; event names are modelled as
`List Char`.  The two dicts built by `VariantDeduplicator._build_variant_map`
(`best_rank` and `self._best_variant`, always updated together on the same
key) are modelled as one finite map `EventName → Option (Nat × EventName)`
holding the rank and the best variant per base name. -/

/-- Event names as sequences of characters. -/
abbrev EventName := List Char

/-- `_VARIANT_SUFFIXES = [":raw", ":debug"]` (checked in this order). -/
def VARIANT_SUFFIXES : List EventName := [":raw".toList, ":debug".toList]

/-- `_EVENTS_WITH_VARIANTS`: the five base events that have variants. -/
def EVENTS_WITH_VARIANTS : List EventName :=
  ["session:start".toList, "session:fork".toList, "session:resume".toList,
   "llm:request".toList, "llm:response".toList]

/-- `get_base_event`: strip the first matching variant suffix
(`event_name[:-len(suffix)]`), or return the name unchanged. -/
def get_base_event (e : EventName) : EventName :=
  match VARIANT_SUFFIXES.find? (fun s => s.isSuffixOf e) with
  | some s => e.take (e.length - s.length)
  | none => e

/-- `has_variants`: the base of the event is in `_EVENTS_WITH_VARIANTS`. -/
def has_variants (e : EventName) : Bool :=
  decide (get_base_event e ∈ EVENTS_WITH_VARIANTS)

/-- `_variant_rank`: `:raw` = 2, `:debug` = 1, base = 0. -/
def variant_rank (e : EventName) : Nat :=
  if (":raw".toList).isSuffixOf e then 2
  else if (":debug".toList).isSuffixOf e then 1
  else 0

/-- One iteration of the `_build_variant_map` loop: skip events without
variants; otherwise record the event for its base if its rank strictly
exceeds the stored rank (`best_rank.get(base, -1)`, and every rank beats the
missing-key default `-1`). -/
def buildStep (m : EventName → Option (Nat × EventName)) (e : EventName) :
    EventName → Option (Nat × EventName) :=
  if has_variants e then
    let base := get_base_event e
    let r := variant_rank e
    let better : Bool :=
      match m base with
      | none => true
      | some (r0, _) => decide (r0 < r)
    if better then (fun b => if b = base then some (r, e) else m b) else m
  else m

/-- `_build_variant_map(events)`: fold the loop over the registered events,
starting from the empty map (a fresh `VariantDeduplicator`). -/
def build_variant_map (events : List EventName) :
    EventName → Option (Nat × EventName) :=
  events.foldl buildStep (fun _ => none)

/-- `VariantDeduplicator.should_process`: events without variants always
pass; an unknown variant family passes; otherwise only the pre-computed best
variant passes. -/
def should_process (m : EventName → Option (Nat × EventName))
    (e : EventName) : Bool :=
  if !has_variants e then true
  else
    match m (get_base_event e) with
    | none => true
    | some (_, best) => decide (e = best)

/-- The unique event name of a given base and rank
(base / `base:debug` / `base:raw`). -/
def variant_name (base : EventName) (r : Nat) : EventName :=
  if r = 2 then base ++ ":raw".toList
  else if r = 1 then base ++ ":debug".toList
  else base

/-- The rank contributed to `base` by a registered event `e` (none when `e`
is not a variant of `base`). -/
def cand (base e : EventName) : Option Nat :=
  if has_variants e = true ∧ get_base_event e = base then
    some (variant_rank e)
  else none

/-- Maximum of two optional ranks. -/
def optMax (a b : Option Nat) : Option Nat :=
  match a, b with
  | none, b => b
  | some x, none => some x
  | some x, some y => some (max x y)

/-- The best registered rank for a base among a list of events. -/
def bestRank (events : List EventName) (base : EventName) : Option Nat :=
  events.foldr (fun e acc => optMax (cand base e) acc) none

end CXDB

namespace CXDB

theorem suffix_reconstruct {s e : EventName} (h : s.isSuffixOf e = true) :
    e.take (e.length - s.length) ++ s = e :=
  List.suffix_iff_eq_append.mp (List.isSuffixOf_iff_suffix.mp h)

theorem isSuffixOf_false_iff {s e : EventName} :
    s.isSuffixOf e = false ↔ ¬s <:+ e := by
  rw [← List.isSuffixOf_iff_suffix]
  cases s.isSuffixOf e <;> simp

theorem raw_toList : ":raw".toList = [':', 'r', 'a', 'w'] := rfl

theorem debug_toList : ":debug".toList = [':', 'd', 'e', 'b', 'u', 'g'] := rfl

theorem variant_reconstruct (e : EventName) :
    e = variant_name (get_base_event e) (variant_rank e) := by
  by_cases h1 : (":raw".toList).isSuffixOf e = true
  · have hr := suffix_reconstruct h1
    simp only [get_base_event, variant_rank, VARIANT_SUFFIXES, List.find?, h1,
      variant_name, if_pos rfl, if_true]
    simpa using hr.symm
  · by_cases h2 : (":debug".toList).isSuffixOf e = true
    · have hr := suffix_reconstruct h2
      simp only [get_base_event, variant_rank, VARIANT_SUFFIXES, List.find?,
        Bool.not_eq_true] at h1 ⊢
      simp only [h1, h2, variant_name]
      simpa using hr.symm
    · simp only [Bool.not_eq_true] at h1 h2
      have hp1 := isSuffixOf_false_iff.mp h1
      have hp2 := isSuffixOf_false_iff.mp h2
      rw [raw_toList] at h1 hp1
      rw [debug_toList] at h2 hp2
      simp [get_base_event, variant_rank, VARIANT_SUFFIXES, List.find?, h1, h2,
        hp1, hp2, variant_name]

theorem variant_rank_le (e : EventName) : variant_rank e ≤ 2 := by
  unfold variant_rank
  split
  · exact le_rfl
  · split <;> omega

theorem raw_not_suffix_append_debug (base : EventName) :
    (":raw".toList).isSuffixOf (base ++ ":debug".toList) = false := by
  by_contra hne
  have h : (":raw".toList).isSuffixOf (base ++ ":debug".toList) = true := by
    revert hne
    cases (":raw".toList).isSuffixOf (base ++ ":debug".toList) <;> simp
  have hs : ":raw".toList <:+ base ++ ":debug".toList :=
    List.isSuffixOf_iff_suffix.mp h
  have hd : ":debug".toList <:+ base ++ ":debug".toList := List.suffix_append _ _
  rcases List.suffix_or_suffix_of_suffix hs hd with h1 | h1
  · exact absurd h1 (by decide)
  · exact absurd h1 (by decide)

theorem variant_rank_variant_name {base : EventName}
    (hraw : (":raw".toList).isSuffixOf base = false)
    (hdbg : (":debug".toList).isSuffixOf base = false)
    {r : Nat} (hr : r ≤ 2) :
    variant_rank (variant_name base r) = r := by
  have hpr := isSuffixOf_false_iff.mp hraw
  have hpd := isSuffixOf_false_iff.mp hdbg
  rw [raw_toList] at hpr
  rw [debug_toList] at hpd
  interval_cases r
  · simp [variant_name, variant_rank, hpr, hpd]
  · have hnr := isSuffixOf_false_iff.mp (raw_not_suffix_append_debug base)
    rw [raw_toList, debug_toList] at hnr
    have hsd : [':', 'd', 'e', 'b', 'u', 'g'] <:+
        base ++ [':', 'd', 'e', 'b', 'u', 'g'] := List.suffix_append _ _
    simp [variant_name, variant_rank, hnr, hsd]
  · have hsr : [':', 'r', 'a', 'w'] <:+ base ++ [':', 'r', 'a', 'w'] :=
      List.suffix_append _ _
    simp [variant_name, variant_rank, hsr]

theorem events_with_variants_no_suffix :
    ∀ b ∈ EVENTS_WITH_VARIANTS,
      (":raw".toList).isSuffixOf b = false ∧
        (":debug".toList).isSuffixOf b = false := by decide

theorem optMax_none_right (a : Option Nat) : optMax a none = a := by
  cases a <;> rfl

theorem optMax_assoc (a b c : Option Nat) :
    optMax (optMax a b) c = optMax a (optMax b c) := by
  cases a <;> cases b <;> cases c <;> simp [optMax] <;> omega

theorem optMax_left_comm (a b c : Option Nat) :
    optMax a (optMax b c) = optMax b (optMax a c) := by
  cases a <;> cases b <;> cases c <;> simp [optMax] <;> omega

theorem bestRank_cons (e : EventName) (l : List EventName) (base : EventName) :
    bestRank (e :: l) base = optMax (cand base e) (bestRank l base) := rfl

theorem bestRank_perm {l1 l2 : List EventName} (h : l1.Perm l2)
    (base : EventName) : bestRank l1 base = bestRank l2 base := by
  induction h with
  | nil => rfl
  | cons x _ ih => rw [bestRank_cons, bestRank_cons, ih]
  | swap x y l =>
      rw [bestRank_cons, bestRank_cons, bestRank_cons, bestRank_cons]
      exact optMax_left_comm _ _ _
  | trans _ _ ih1 ih2 => exact ih1.trans ih2

theorem cand_eq_some {base x : EventName} {c : Nat} (h : cand base x = some c) :
    has_variants x = true ∧ get_base_event x = base ∧ variant_rank x = c := by
  unfold cand at h
  split at h
  · rename_i hcond
    exact ⟨hcond.1, hcond.2, by injection h⟩
  · cases h

theorem bestRank_mem {l : List EventName} {e base : EventName} (he : e ∈ l)
    (hv : has_variants e = true) (hb : get_base_event e = base) :
    ∃ r, bestRank l base = some r ∧ variant_rank e ≤ r := by
  induction l with
  | nil => cases he
  | cons x l ih =>
      rw [bestRank_cons]
      rcases List.mem_cons.mp he with rfl | hmem
      · have hc : cand base e = some (variant_rank e) := by
          simp [cand, hv, hb]
        rw [hc]
        cases hrest : bestRank l base with
        | none => exact ⟨variant_rank e, rfl, le_rfl⟩
        | some r2 => exact ⟨max (variant_rank e) r2, rfl, Nat.le_max_left _ _⟩
      · obtain ⟨r, hr, hle⟩ := ih hmem
        rw [hr]
        cases hc : cand base x with
        | none => exact ⟨r, rfl, hle⟩
        | some c => exact ⟨max c r, rfl, hle.trans (Nat.le_max_right _ _)⟩

theorem bestRank_realized {l : List EventName} {base : EventName} {r : Nat}
    (h : bestRank l base = some r) :
    ∃ e, e ∈ l ∧ has_variants e = true ∧ get_base_event e = base ∧
      variant_rank e = r := by
  induction l generalizing r with
  | nil => cases h
  | cons x l ih =>
      rw [bestRank_cons] at h
      cases hc : cand base x with
      | none =>
          rw [hc] at h
          obtain ⟨e, hm, h1, h2, h3⟩ := ih h
          exact ⟨e, List.mem_cons_of_mem _ hm, h1, h2, h3⟩
      | some c =>
          rw [hc] at h
          cases hrest : bestRank l base with
          | none =>
              rw [hrest] at h
              obtain ⟨h1, h2, h3⟩ := cand_eq_some hc
              refine ⟨x, List.mem_cons_self _ _, h1, h2, ?_⟩
              simp [optMax] at h
              omega
          | some r2 =>
              rw [hrest] at h
              simp only [optMax, Option.some.injEq] at h
              rcases Nat.le_total c r2 with hle | hle
              · obtain ⟨e, hm, h1, h2, h3⟩ := ih hrest
                refine ⟨e, List.mem_cons_of_mem _ hm, h1, h2, ?_⟩
                omega
              · obtain ⟨h1, h2, h3⟩ := cand_eq_some hc
                refine ⟨x, List.mem_cons_self _ _, h1, h2, ?_⟩
                omega

end CXDB

namespace CXDB

/-- Well-formedness of the variant map: every stored best variant is the
unique name determined by its base and rank. -/
def MapWF (m : EventName → Option (Nat × EventName)) : Prop :=
  ∀ b r e, m b = some (r, e) → e = variant_name b r

open Classical in
theorem buildStep_apply (m : EventName → Option (Nat × EventName))
    (e b : EventName) :
    (buildStep m e) b =
      if has_variants e = true ∧ b = get_base_event e ∧
          (match m (get_base_event e) with
           | none => True
           | some (r0, _) => r0 < variant_rank e) then
        some (variant_rank e, e)
      else m b := by
  unfold buildStep
  by_cases hv : has_variants e = true
  · cases hm : m (get_base_event e) with
    | none =>
        simp only [hv, if_true, hm, true_and]
        by_cases hb : b = get_base_event e <;> simp [hb]
    | some p =>
        obtain ⟨r0, e0⟩ := p
        by_cases hr : r0 < variant_rank e
        · simp only [hv, if_true, hm, true_and, hr, decide_eq_true_eq]
          by_cases hb : b = get_base_event e <;> simp [hb, hr]
        · simp only [hv, if_true, hm, true_and, decide_eq_true_eq]
          simp [hr]
  · simp [hv]

theorem buildStep_wf {m : EventName → Option (Nat × EventName)}
    (hm : MapWF m) (e : EventName) : MapWF (buildStep m e) := by
  intro b r x hx
  rw [buildStep_apply] at hx
  split at hx
  · rename_i hc
    injection hx with hx
    injection hx with hr hx
    subst hr hx
    rw [hc.2.1]
    exact variant_reconstruct e
  · exact hm _ _ _ hx

theorem buildStep_rank (m : EventName → Option (Nat × EventName))
    (e base : EventName) :
    ((buildStep m e) base).map Prod.fst =
      optMax ((m base).map Prod.fst) (cand base e) := by
  rw [buildStep_apply]
  by_cases hv : has_variants e = true
  · by_cases hb : base = get_base_event e
    · subst hb
      cases hm : m (get_base_event e) with
      | none => simp [hv, hm, cand, optMax]
      | some p =>
          obtain ⟨r0, e0⟩ := p
          by_cases hr : r0 < variant_rank e
          · simp only [hv, hm, hr, true_and, and_true, if_pos rfl, if_true]
            simp [cand, hv, optMax, Nat.max_eq_right (Nat.le_of_lt hr)]
          · simp only [hv, hm, hr, true_and, and_true]
            rw [if_neg (by simp [hr])]
            simp [cand, hv, optMax, Nat.max_eq_left (Nat.le_of_not_lt hr)]
    · rw [if_neg (by intro hc; exact hb hc.2.1)]
      have hc : cand base e = none := by
        simp only [cand]
        rw [if_neg (by intro hc; exact hb hc.2.symm)]
      rw [hc, optMax_none_right]
  · rw [if_neg (by intro hc; exact hv hc.1)]
    have hc : cand base e = none := by
      simp only [cand]
      rw [if_neg (by intro hc; exact hv hc.1)]
    rw [hc, optMax_none_right]

theorem build_foldl_lookup (l : List EventName) :
    ∀ m : EventName → Option (Nat × EventName), MapWF m → ∀ base,
      (l.foldl buildStep m) base =
        (optMax ((m base).map Prod.fst) (bestRank l base)).map
          (fun r => (r, variant_name base r)) := by
  induction l with
  | nil =>
      intro m hm base
      simp only [List.foldl_nil, bestRank, List.foldr_nil, optMax_none_right]
      cases hmb : m base with
      | none => rfl
      | some p =>
          obtain ⟨r0, e0⟩ := p
          simp [hm base r0 e0 hmb]
  | cons e l ih =>
      intro m hm base
      rw [List.foldl_cons]
      rw [ih (buildStep m e) (buildStep_wf hm e) base]
      rw [buildStep_rank m e base, bestRank_cons, ← optMax_assoc]

/-- Lookup characterization of the pre-computed variant map: the stored entry
for a base is exactly the best registered rank together with the variant name
it determines. -/
theorem build_lookup (events : List EventName) (base : EventName) :
    build_variant_map events base =
      (bestRank events base).map (fun r => (r, variant_name base r)) := by
  have h := build_foldl_lookup events (fun _ => none) (fun b r e hx => by cases hx) base
  simpa [optMax] using h

end CXDB

namespace CXDB

theorem should_process_of_has_variants
    {m : EventName → Option (Nat × EventName)} {e : EventName}
    (hv : has_variants e = true) :
    should_process m e =
      (match m (get_base_event e) with
       | none => true
       | some (_, best) => decide (e = best)) := by
  simp [should_process, hv]

/-- The claim's concrete known-event set
`{"session:start", "session:start:debug", "session:start:raw"}`. -/
def SESSION_START_VARIANTS : List EventName :=
  ["session:start".toList, "session:start:debug".toList,
   "session:start:raw".toList]

/-- **C6** — For a deduplicator pre-computed from a list of known event
names, `should_process` is a pure, order-independent predicate: (1) it is
invariant under permutations of the known-event list; (2) any event with no
known variant family always passes; (3) the richest registered variant of
each family passes; (4) every other registered variant of that family is
rejected; and (5) for the known set
`{"session:start", "session:start:debug", "session:start:raw"}` it accepts
only the `:raw` form. -/
theorem variant_dedup_spec :
    (∀ l1 l2 : List EventName, l1.Perm l2 → ∀ e,
        should_process (build_variant_map l1) e =
          should_process (build_variant_map l2) e) ∧
    (∀ (events : List EventName) (e : EventName), has_variants e = false →
        should_process (build_variant_map events) e = true) ∧
    (∀ (events : List EventName) (e : EventName), e ∈ events →
        has_variants e = true →
        (∀ e' ∈ events, has_variants e' = true →
          get_base_event e' = get_base_event e →
          variant_rank e' ≤ variant_rank e) →
        should_process (build_variant_map events) e = true) ∧
    (∀ (events : List EventName) (e e' : EventName), e ∈ events →
        e' ∈ events → has_variants e = true → has_variants e' = true →
        get_base_event e' = get_base_event e →
        variant_rank e' < variant_rank e →
        should_process (build_variant_map events) e' = false) ∧
    (should_process (build_variant_map SESSION_START_VARIANTS)
        "session:start:raw".toList = true ∧
      should_process (build_variant_map SESSION_START_VARIANTS)
        "session:start".toList = false ∧
      should_process (build_variant_map SESSION_START_VARIANTS)
        "session:start:debug".toList = false) := by
  refine ⟨?_, ?_, ?_, ?_, ?_⟩
  · intro l1 l2 hperm e
    have hpt : build_variant_map l1 (get_base_event e) =
        build_variant_map l2 (get_base_event e) := by
      rw [build_lookup, build_lookup, bestRank_perm hperm]
    unfold should_process
    rw [hpt]
  · intro events e h
    simp [should_process, h]
  · intro events e he hv hmax
    rw [should_process_of_has_variants hv, build_lookup]
    obtain ⟨r, hbr, hler⟩ := bestRank_mem he hv rfl
    obtain ⟨e2, he2, hv2, hb2, hr2⟩ := bestRank_realized hbr
    have hre : r = variant_rank e := le_antisymm (hr2 ▸ hmax e2 he2 hv2 hb2) hler
    rw [hbr, hre]
    simp only [Option.map_some']
    exact decide_eq_true (variant_reconstruct e)
  · intro events e e' he he' hv hv' hbase hlt
    rw [should_process_of_has_variants hv', build_lookup, hbase]
    obtain ⟨r, hbr, hler⟩ := bestRank_mem he hv rfl
    rw [hbr]
    simp only [Option.map_some']
    apply decide_eq_false
    intro heq
    obtain ⟨e2, he2, hv2, hb2, hr2⟩ := bestRank_realized hbr
    have hr2' : r ≤ 2 := hr2 ▸ variant_rank_le e2
    have hmem : get_base_event e ∈ EVENTS_WITH_VARIANTS :=
      of_decide_eq_true hv
    obtain ⟨hnr, hnd⟩ := events_with_variants_no_suffix _ hmem
    have hre : variant_rank e' = r := by
      rw [heq]
      exact variant_rank_variant_name hnr hnd hr2'
    omega
  · refine ⟨by decide, by decide, by decide⟩

/-- Witness for C6: the richest-variant conjunct applied to the concrete
known-event set accepts the `:raw` form. -/
theorem variant_dedup_spec_witness :
    should_process (build_variant_map SESSION_START_VARIANTS)
      "session:start:raw".toList = true :=
  variant_dedup_spec.2.2.1 SESSION_START_VARIANTS "session:start:raw".toList
    (by decide) (by decide) (by decide)

end CXDB

namespace CXDB

/-! ## Turn accumulator (`turns.py`)

`ToolCallRecord` and the tool-call matching of `TurnAccumulator.on_tool_pre`
/ `on_tool_post`, and the token math of `on_provider_response`.  Python's
`reversed(...)`-loop search that mutates the most recent matching record in
place is modelled by `updateLast`. -/

/-- Python string slicing `s[:n]` (by characters). -/
def pyTruncate (n : Nat) (s : String) : String := (s.toList.take n).asString

/-- `ToolCallRecord`: one tool invocation within an exchange. -/
structure ToolCallRecord where
  tool_name : String
  input_summary : String
  call_id : Option String := none
  result : Option String := none
  error : Option String := none
  has_result : Bool := false
deriving DecidableEq

/-- `on_tool_pre`: append a fresh pending record.  `tool_input_str` is
`str(tool_input)` and `call_id` is `data.get("tool_call_id") or
data.get("call_id")` (`none` models an absent or falsy id). -/
def on_tool_pre (calls : List ToolCallRecord) (tool_name : String)
    (tool_input_str : String) (call_id : Option String) :
    List ToolCallRecord :=
  calls ++ [{ tool_name := tool_name,
              input_summary := pyTruncate 200 tool_input_str,
              call_id := call_id }]

/-- Update the *last* element satisfying `p` (the `for record in
reversed(self._current.tool_calls)` loop mutating the first match in place);
`none` when no element matches. -/
def updateLast (p : ToolCallRecord → Bool)
    (u : ToolCallRecord → ToolCallRecord) :
    List ToolCallRecord → Option (List ToolCallRecord)
  | [] => none
  | r :: rest =>
      match updateLast p u rest with
      | some rest2 => some (r :: rest2)
      | none => if p r then some (u r :: rest) else none

/-- The in-place completion performed on a matched record: set `has_result`,
and overwrite `result` / `error` with the truncated new values when they are
not `None`. -/
def complete_record (result error : Option String) (r : ToolCallRecord) :
    ToolCallRecord :=
  { r with
    has_result := true
    result := match result with
      | some s => some (pyTruncate 500 s)
      | none => r.result
    error := match error with
      | some s => some (pyTruncate 500 s)
      | none => r.error }

/-- `on_tool_post`: try the most-recent pending record with an equal
`call_id` first; when there is none (or no `call_id` was supplied), fall
back to the most-recent pending record with the same `tool_name`; if neither
matches, leave the records unchanged. -/
def on_tool_post (calls : List ToolCallRecord) (tool_name : String)
    (call_id : Option String) (result error : Option String) :
    List ToolCallRecord :=
  let fallback :=
    match updateLast (fun r => r.tool_name == tool_name && !r.has_result)
        (complete_record result error) calls with
    | some calls2 => calls2
    | none => calls
  match call_id with
  | some cid =>
      match updateLast (fun r => r.call_id == some cid && !r.has_result)
          (complete_record result error) calls with
      | some calls2 => calls2
      | none => fallback
  | none => fallback

theorem updateLast_eq_none {p : ToolCallRecord → Bool}
    {u : ToolCallRecord → ToolCallRecord} {l : List ToolCallRecord}
    (h : updateLast p u l = none) : ∀ r ∈ l, p r = false := by
  induction l with
  | nil => intro r hr; cases hr
  | cons x l ih =>
      intro r hr
      unfold updateLast at h
      cases hrest : updateLast p u l with
      | some l2 => rw [hrest] at h; cases h
      | none =>
          rw [hrest] at h
          rcases List.mem_cons.mp hr with rfl | hmem
          · by_cases hp : p r = true
            · rw [if_pos hp] at h; cases h
            · exact Bool.not_eq_true _ ▸ Bool.of_not_eq_true hp
          · exact ih hrest r hmem

theorem updateLast_eq_some {p : ToolCallRecord → Bool}
    {u : ToolCallRecord → ToolCallRecord} {l l2 : List ToolCallRecord}
    (h : updateLast p u l = some l2) :
    ∃ i, ∃ hi : i < l.length,
      p (l.get ⟨i, hi⟩) = true ∧
      l2 = l.set i (u (l.get ⟨i, hi⟩)) ∧
      ∀ j, ∀ hj : j < l.length, i < j → p (l.get ⟨j, hj⟩) = false := by
  induction l generalizing l2 with
  | nil => cases h
  | cons x l ih =>
      unfold updateLast at h
      cases hrest : updateLast p u l with
      | some l3 =>
          rw [hrest] at h
          injection h with h
          obtain ⟨i, hi, hp, heq, hafter⟩ := ih hrest
          refine ⟨i + 1, by simpa using Nat.succ_lt_succ hi, ?_, ?_, ?_⟩
          · simpa using hp
          · subst heq h
            rfl
          · intro j hj hij
            cases j with
            | zero => omega
            | succ j =>
                have hj' : j < l.length := by simpa using hj
                simpa using hafter j hj' (by omega)
      | none =>
          rw [hrest] at h
          by_cases hp : p x = true
          · rw [if_pos hp] at h
            injection h with h
            refine ⟨0, by simp, by simpa using hp, ?_, ?_⟩
            · subst h; rfl
            · intro j hj hij
              cases j with
              | zero => omega
              | succ j =>
                  have hj' : j < l.length := by simpa using hj
                  simpa using updateLast_eq_none hrest _ (l.get_mem j hj')
          · rw [if_neg (by simpa using hp)] at h
            cases h

theorem updateLast_isSome {p : ToolCallRecord → Bool}
    {u : ToolCallRecord → ToolCallRecord} {l : List ToolCallRecord}
    (h : ∃ r ∈ l, p r = true) : (updateLast p u l).isSome := by
  cases hu : updateLast p u l with
  | some l2 => rfl
  | none =>
      obtain ⟨r, hm, hp⟩ := h
      rw [updateLast_eq_none hu r hm] at hp
      cases hp

end CXDB

namespace CXDB

/-- **C4 counterexample** — the claim that a finish signal carrying a
`call_id` completes a record *only* by equal `call_id` fails: with one
pending record for tool `"t"` under call id `"a"`, a finish for `"t"`
carrying the different call id `"b"` still completes that record, because
`on_tool_post` falls through to tool-name matching when no record carries
the supplied call id. -/
theorem tool_post_callid_counterexample :
    on_tool_post (on_tool_pre [] "t" "x" (some "a")) "t" (some "b")
        (some "res") none =
      [{ tool_name := "t", input_summary := "x", call_id := some "a",
         result := some "res", error := none, has_result := true }] := by
  decide

/-- **C4 (amended)** — When a finish signal carries a `call_id` and some
pending record has that `call_id`, the accumulator completes exactly the
most recent such record (no fallback); only when no pending record carries
the supplied `call_id`, or when no `call_id` is supplied, does it fall back
to most-recent-first matching by `tool_name`.  In particular two started
records with distinct call ids completed in reverse order each receive the
result belonging to their own call id. -/
theorem tool_post_matching :
    (∀ (calls : List ToolCallRecord) (name cid : String)
        (res err : Option String),
      (∃ r ∈ calls, r.call_id = some cid ∧ r.has_result = false) →
      ∃ i, ∃ hi : i < calls.length,
        (calls.get ⟨i, hi⟩).call_id = some cid ∧
        (calls.get ⟨i, hi⟩).has_result = false ∧
        on_tool_post calls name (some cid) res err =
          calls.set i (complete_record res err (calls.get ⟨i, hi⟩)) ∧
        ∀ j, ∀ hj : j < calls.length, i < j →
          ¬((calls.get ⟨j, hj⟩).call_id = some cid ∧
            (calls.get ⟨j, hj⟩).has_result = false)) ∧
    (on_tool_post
        (on_tool_post
          (on_tool_pre (on_tool_pre [] "read_file" "a" (some "A"))
            "read_file" "b" (some "B"))
          "read_file" (some "B") (some "content of b") none)
        "read_file" (some "A") (some "content of a") none =
      [{ tool_name := "read_file", input_summary := "a",
         call_id := some "A", result := some "content of a",
         error := none, has_result := true },
       { tool_name := "read_file", input_summary := "b",
         call_id := some "B", result := some "content of b",
         error := none, has_result := true }]) := by
  constructor
  · intro calls name cid res err hex
    have hex2 : ∃ r ∈ calls, (r.call_id == some cid && !r.has_result) = true := by
      obtain ⟨r, hm, h1, h2⟩ := hex
      exact ⟨r, hm, by simp [h1, h2]⟩
    have hsome := updateLast_isSome (u := complete_record res err) hex2
    cases hu : updateLast (fun r => r.call_id == some cid && !r.has_result)
        (complete_record res err) calls with
    | none => rw [hu] at hsome; cases hsome
    | some calls2 =>
        obtain ⟨i, hi, hp, heq, hafter⟩ := updateLast_eq_some hu
        simp only [Bool.and_eq_true, beq_iff_eq, Bool.not_eq_eq_eq_not,
          Bool.not_true] at hp
        refine ⟨i, hi, hp.1, hp.2, ?_, ?_⟩
        · simp only [on_tool_post, hu]
          exact heq
        · intro j hj hij hcon
          have h := hafter j hj hij
          rw [hcon.1, hcon.2] at h
          simp at h
  · decide

/-- Witness for the amended C4 at a single pending record. -/
theorem tool_post_matching_witness :
    on_tool_post [{ tool_name := "t", input_summary := "x",
                    call_id := some "A" }] "t" (some "A") (some "r") none =
      [{ tool_name := "t", input_summary := "x", call_id := some "A",
         result := some "r", error := none, has_result := true }] := by
  obtain ⟨i, hi, h1, h2, h3, h4⟩ :=
    tool_post_matching.1
      [{ tool_name := "t", input_summary := "x", call_id := some "A" }]
      "t" "A" (some "r") none
      ⟨_, List.mem_singleton_self _, rfl, rfl⟩
  have hz : i = 0 := by
    simp at hi
    omega
  subst hz
  rw [h3]
  rfl

end CXDB

namespace CXDB

/-! ## Provider metrics (`turns.py`: `TurnAccumulator.on_provider_response`)

The `usage` mapping is modelled as an association list whose values can be
integers (with `none` for Python `None`), strings, or the nested
`completion_tokens_details` mapping.  The `duration_ms` entry added when a
`provider:request` start instant was recorded depends on `time.monotonic`
and lies outside the pure value computed here. -/

/-- A value in a provider `usage` mapping. -/
inductive UVal where
  | num (n : Option Nat)
  | str (s : String)
  | dict (entries : List (String × Option Nat))
deriving DecidableEq

/-- The `usage` mapping, in insertion order. -/
abbrev Usage := List (String × UVal)

/-- `usage.get(k, 0) or 0`: absent keys and `None` values become `0`. -/
def usageNum (u : Usage) (k : String) : Nat :=
  match u.lookup k with
  | some (.num (some n)) => n
  | _ => 0

/-- `usage.get(k, "")` for string-valued keys. -/
def usageStr (u : Usage) (k : String) : String :=
  match u.lookup k with
  | some (.str s) => s
  | _ => ""

/-- `usage.get(k, {})` for the nested details mapping. -/
def usageDict (u : Usage) (k : String) : List (String × Option Nat) :=
  match u.lookup k with
  | some (.dict d) => d
  | _ => []

/-- The metrics dict recorded by `on_provider_response` (its numeric and
string entries; `duration_ms` is time-dependent and added separately). -/
structure Metrics where
  input_tokens : Nat
  cache_read_input_tokens : Nat
  cache_creation_input_tokens : Nat
  total_input_tokens : Nat
  output_tokens : Nat
  total_tokens : Nat
  reasoning_tokens : Nat
  cached_tokens : Nat
  model : String
  provider : String
deriving DecidableEq

/-- `on_provider_response`: no metrics when the usage mapping is empty
(`if not usage: return`); otherwise Anthropic-aware token math with every
absent field defaulting to 0.  `data_model` and `data_provider` are
`data.get("model")` (`none` for absent or falsy, falling back to
`usage.get("model", "")`) and `data.get("provider", "")`. -/
def on_provider_response (usage : Usage)
    (data_model data_provider : Option String) : Option Metrics :=
  if usage.isEmpty then none
  else
    let input_tokens := usageNum usage "input_tokens"
    let cache_read := usageNum usage "cache_read_input_tokens"
    let cache_creation := usageNum usage "cache_creation_input_tokens"
    let total_input := input_tokens + cache_read + cache_creation
    let output_tokens := usageNum usage "output_tokens"
    let reasoning0 :=
      if usageNum usage "reasoning_tokens" ≠ 0 then
        usageNum usage "reasoning_tokens"
      else usageNum usage "thinking_tokens"
    let completion_details := usageDict usage "completion_tokens_details"
    let reasoning :=
      if ¬completion_details.isEmpty ∧ reasoning0 = 0 then
        match completion_details.lookup "reasoning_tokens" with
        | some (some n) => n
        | _ => 0
      else reasoning0
    some
      { input_tokens := input_tokens
        cache_read_input_tokens := cache_read
        cache_creation_input_tokens := cache_creation
        total_input_tokens := total_input
        output_tokens := output_tokens
        total_tokens := total_input + output_tokens
        reasoning_tokens := reasoning
        cached_tokens := cache_read
        model := match data_model with
          | some m => m
          | none => usageStr usage "model"
        provider := data_provider.getD "" }

/-- **C9** — Accumulator token math: whenever metrics are recorded,
`total_input_tokens = input_tokens + cache_read_tokens +
cache_creation_tokens` and `total_tokens = total_input_tokens +
output_tokens`, absent fields defaulting to 0; in particular
`input_tokens=5, cache_read=1000, cache_creation=200, output_tokens=500`
yields `total_input_tokens=1205` and `total_tokens=1705`, and a usage with
only `input_tokens=7` yields `total_input_tokens=7` and `total_tokens=7`. -/
theorem provider_response_token_math :
    (∀ (usage : Usage) (dm dp : Option String) (m : Metrics),
        on_provider_response usage dm dp = some m →
        m.total_input_tokens =
            m.input_tokens + m.cache_read_input_tokens +
              m.cache_creation_input_tokens ∧
          m.total_tokens = m.total_input_tokens + m.output_tokens) ∧
    ((on_provider_response
        [("input_tokens", .num (some 5)),
         ("cache_read_input_tokens", .num (some 1000)),
         ("cache_creation_input_tokens", .num (some 200)),
         ("output_tokens", .num (some 500))] none none).map
        (fun m => (m.total_input_tokens, m.total_tokens)) =
      some (1205, 1705)) ∧
    ((on_provider_response [("input_tokens", .num (some 7))] none none).map
        (fun m => (m.total_input_tokens, m.total_tokens)) = some (7, 7)) := by
  refine ⟨?_, by decide, by decide⟩
  intro usage dm dp m h
  unfold on_provider_response at h
  split at h
  · cases h
  · injection h with h
    subst h
    exact ⟨rfl, rfl⟩

/-- Witness for C9 at the claim's concrete usage mapping. -/
theorem provider_response_token_math_witness :
    (1205 : Nat) = 5 + 1000 + 200 ∧ (1705 : Nat) = 1205 + 500 :=
  provider_response_token_math.1
    [("input_tokens", .num (some 5)),
     ("cache_read_input_tokens", .num (some 1000)),
     ("cache_creation_input_tokens", .num (some 200)),
     ("output_tokens", .num (some 500))] none none
    { input_tokens := 5, cache_read_input_tokens := 1000,
      cache_creation_input_tokens := 200, total_input_tokens := 1205,
      output_tokens := 500, total_tokens := 1705, reasoning_tokens := 0,
      cached_tokens := 1000, model := "", provider := "" }
    (by decide)

end CXDB

namespace CXDB

/-! ## Retry buffer (`buffer.py`: `EventBuffer`)

Each buffered item is `(context_id, msgpack_bytes, declared_type_id,
declared_type_version)`.  The `collections.deque(maxlen=max_size)` is a list
that drops from the front when an append exceeds `maxlen`.  The async
`send_fn` callback is modelled by an oracle mapping the index of the send
attempt within one flush (and the record) to success or failure
(an exception). -/

/-- `(context_id, msgpack_bytes, declared_type_id, declared_type_version)`. -/
abbrev BufferedRecord := Nat × List Nat × String × Nat

/-- An `EventBuffer` with its observability counters. -/
structure EventBuffer where
  buffer : List BufferedRecord
  max_size : Nat
  overflow_count : Nat
  total_enqueued : Nat
  total_sent : Nat
deriving DecidableEq

/-- `EventBuffer(max_size)`: fresh empty buffer, all counters zero. -/
def EventBuffer.init (max_size : Nat := 1000) : EventBuffer :=
  { buffer := [], max_size := max_size, overflow_count := 0,
    total_enqueued := 0, total_sent := 0 }

/-- `EventBuffer.enqueue`: append; a full deque drops its oldest record
(`deque maxlen` behaviour, expressed by the `drop`); count the overflow when
the buffer was already full. -/
def EventBuffer.enqueue (b : EventBuffer) (context_id : Nat)
    (payload : List Nat) (declared_type_id : String)
    (declared_type_version : Nat := 1) : EventBuffer :=
  let was_full := b.buffer.length == b.max_size
  let grown := b.buffer ++
    [(context_id, payload, declared_type_id, declared_type_version)]
  { b with
    buffer := grown.drop (grown.length - b.max_size)
    total_enqueued := b.total_enqueued + 1
    overflow_count :=
      if was_full then b.overflow_count + 1 else b.overflow_count }

/-- Success (`true`) or exception (`false`) of the `i`-th `send_fn` call
within one flush pass. -/
abbrev SendOracle := Nat → BufferedRecord → Bool

/-- The `while self._buffer:` loop of `flush`: returns the successfully sent
records (in send order) and the remaining buffer; stops at the first
failure. -/
def flushGo (send : SendOracle) :
    Nat → List BufferedRecord → List BufferedRecord × List BufferedRecord
  | _, [] => ([], [])
  | i, r :: rest =>
      if send i r then
        let p := flushGo send (i + 1) rest
        (r :: p.1, p.2)
      else ([], r :: rest)

/-- `EventBuffer.flush(send_fn)`: FIFO sends until the first failure;
already-sent records are removed and counted in `total_sent`.  Returns the
new buffer, the sent count, and (as the observation of the callback
interaction) the list of records successfully handed to `send_fn`, in
order. -/
def EventBuffer.flush (b : EventBuffer) (send : SendOracle) :
    EventBuffer × Nat × List BufferedRecord :=
  let p := flushGo send 0 b.buffer
  ({ b with buffer := p.2, total_sent := b.total_sent + p.1.length },
   p.1.length, p.1)

/-- `EventBuffer.clear`: empties the buffer; counters are untouched. -/
def EventBuffer.clear (b : EventBuffer) : EventBuffer :=
  { b with buffer := [] }

theorem flushGo_append (send : SendOracle) :
    ∀ (l : List BufferedRecord) (i : Nat),
      (flushGo send i l).1 ++ (flushGo send i l).2 = l := by
  intro l
  induction l with
  | nil => intro i; rfl
  | cons r rest ih =>
      intro i
      unfold flushGo
      by_cases h : send i r = true
      · simp [h, ih (i + 1)]
      · simp [h]

theorem flushGo_spec (send : SendOracle) (d : BufferedRecord) :
    ∀ (l : List BufferedRecord) (i0 j : Nat),
      j ≤ l.length →
      (∀ i, i < j → send (i0 + i) (l.getD i d) = true) →
      (j < l.length → send (i0 + j) (l.getD j d) = false) →
      flushGo send i0 l = (l.take j, l.drop j) := by
  intro l
  induction l with
  | nil =>
      intro i0 j hj _ _
      have hz : j = 0 := by simpa using hj
      subst hz
      rfl
  | cons r rest ih =>
      intro i0 j hj hok hfail
      cases j with
      | zero =>
          have hf : send i0 r = false := by
            have := hfail (by simp)
            simpa using this
          unfold flushGo
          simp [hf]
      | succ j =>
          have h0 : send i0 r = true := by
            have := hok 0 (Nat.succ_pos j)
            simpa using this
          have hrec : flushGo send (i0 + 1) rest = (rest.take j, rest.drop j) := by
            apply ih (i0 + 1) j (by simpa using hj)
            · intro i hi
              have := hok (i + 1) (by omega)
              simpa [Nat.add_assoc, Nat.add_comm 1 i] using this
            · intro hlt
              have := hfail (by simpa using hlt)
              simpa [Nat.add_assoc, Nat.add_comm 1 j] using this
          unfold flushGo
          simp [h0, hrec]

/-- **C7** — Flush sends oldest-first and stops at the first failure: if the
callback succeeds on the first `j` records (in buffer order) and fails on
the next (or `j` is the whole buffer), then flush sends exactly the first
`j` records in order, removes them, returns count `j`, and retains the
failing record and everything behind it in original order.  In particular,
3 enqueued items flushed against a sink failing on the 2nd call yield sent
count 1 with items 2 and 3 retained in order, and a later all-success flush
drains those two in that same order. -/
theorem buffer_flush_partial_failure :
    (∀ (b : EventBuffer) (send : SendOracle) (j : Nat) (d : BufferedRecord),
      j ≤ b.buffer.length →
      (∀ i, i < j → send i (b.buffer.getD i d) = true) →
      (j < b.buffer.length → send j (b.buffer.getD j d) = false) →
      b.flush send =
        ({ b with buffer := b.buffer.drop j,
                  total_sent := b.total_sent + j },
         j, b.buffer.take j)) ∧
    ((((EventBuffer.init 1000).enqueue 1 [1] "t" 1).enqueue
          2 [2] "t" 1).enqueue 3 [3] "t" 1).flush (fun i _ => i == 0) =
        ({ buffer := [(2, [2], "t", 1), (3, [3], "t", 1)], max_size := 1000,
           overflow_count := 0, total_enqueued := 3, total_sent := 1 },
         1, [(1, [1], "t", 1)]) ∧
    ({ buffer := [(2, [2], "t", 1), (3, [3], "t", 1)], max_size := 1000,
       overflow_count := 0, total_enqueued := 3,
       total_sent := 1 : EventBuffer }).flush (fun _ _ => true) =
      ({ buffer := [], max_size := 1000, overflow_count := 0,
         total_enqueued := 3, total_sent := 3 }, 2,
       [(2, [2], "t", 1), (3, [3], "t", 1)]) := by
  constructor
  · intro b send j d hj hok hfail
    unfold EventBuffer.flush
    have hgo : flushGo send 0 b.buffer = (b.buffer.take j, b.buffer.drop j) := by
      apply flushGo_spec send d b.buffer 0 j hj
      · intro i hi
        simpa using hok i hi
      · intro hlt
        simpa using hfail hlt
    rw [hgo]
    have hlen : (b.buffer.take j).length = j := by
      simp [List.length_take]
      omega
    simp [hlen]
  · constructor
    · decide
    · decide

/-- Witness for C7: an always-succeeding sink drains a 2-element buffer. -/
theorem buffer_flush_partial_failure_witness :
    ((EventBuffer.init 4).enqueue 1 [7] "t" 1).flush (fun _ _ => true) =
      ({ buffer := [], max_size := 4, overflow_count := 0,
         total_enqueued := 1, total_sent := 1 }, 1, [(1, [7], "t", 1)]) := by
  have h := buffer_flush_partial_failure.1
    ((EventBuffer.init 4).enqueue 1 [7] "t" 1) (fun _ _ => true) 1
    (0, [], "", 0) (by decide) (fun i hi => rfl) (by decide)
  rw [h]
  decide

end CXDB

namespace CXDB

/-- Buffer states reachable from a fresh `EventBuffer(max_size)` by any
sequence of `enqueue` and `flush` operations. -/
inductive BufferReach : EventBuffer → Prop where
  | init (max_size : Nat) : BufferReach (EventBuffer.init max_size)
  | enqueue {b : EventBuffer} (h : BufferReach b) (context_id : Nat)
      (payload : List Nat) (type_id : String) (type_version : Nat) :
      BufferReach (b.enqueue context_id payload type_id type_version)
  | flush {b : EventBuffer} (h : BufferReach b) (send : SendOracle) :
      BufferReach (b.flush send).1

theorem buffer_reach_bounded_and_conserved {b : EventBuffer}
    (h : BufferReach b) :
    b.buffer.length ≤ b.max_size ∧
      b.total_enqueued = b.total_sent + b.overflow_count + b.buffer.length := by
  induction h with
  | init max_size => simp [EventBuffer.init]
  | @enqueue b hb context_id payload type_id type_version ih =>
      obtain ⟨hle, hid⟩ := ih
      unfold EventBuffer.enqueue
      dsimp only
      by_cases hfull : b.buffer.length = b.max_size
      · rw [if_pos (by simpa using hfull)]
        simp only [List.length_drop, List.length_append, List.length_singleton]
        exact ⟨by omega, by omega⟩
      · rw [if_neg (by simpa using hfull)]
        simp only [List.length_drop, List.length_append, List.length_singleton]
        exact ⟨by omega, by omega⟩
  | @flush b hb send ih =>
      obtain ⟨hle, hid⟩ := ih
      have happ := flushGo_append send b.buffer 0
      have hlen : (flushGo send 0 b.buffer).1.length +
          (flushGo send 0 b.buffer).2.length = b.buffer.length := by
        rw [← List.length_append, happ]
      unfold EventBuffer.flush
      dsimp only
      constructor
      · omega
      · omega

/-- **C10** — Buffer counter conservation: in every state reachable from a
fresh buffer by enqueues and flushes, `total_enqueued = total_sent +
overflow_count + size`: every record ever enqueued is accounted for as
successfully sent, evicted by overflow, or still buffered. -/
theorem buffer_counter_conservation {b : EventBuffer} (h : BufferReach b) :
    b.total_enqueued = b.total_sent + b.overflow_count + b.buffer.length :=
  (buffer_reach_bounded_and_conserved h).2

/-- Witness for C10 on a concrete reachable state: capacity 2, three
enqueues (one overflow eviction), then a flush whose first send succeeds
and second fails. -/
theorem buffer_counter_conservation_witness :
    (((((EventBuffer.init 2).enqueue 1 [1] "t" 1).enqueue 2 [2] "t" 1).enqueue
        3 [3] "t" 1).flush (fun i _ => i == 0)).1.total_enqueued =
      (((((EventBuffer.init 2).enqueue 1 [1] "t" 1).enqueue 2 [2] "t" 1).enqueue
          3 [3] "t" 1).flush (fun i _ => i == 0)).1.total_sent +
        (((((EventBuffer.init 2).enqueue 1 [1] "t" 1).enqueue
            2 [2] "t" 1).enqueue 3 [3] "t" 1).flush
            (fun i _ => i == 0)).1.overflow_count +
        (((((EventBuffer.init 2).enqueue 1 [1] "t" 1).enqueue
            2 [2] "t" 1).enqueue 3 [3] "t" 1).flush
            (fun i _ => i == 0)).1.buffer.length :=
  buffer_counter_conservation
    (BufferReach.flush
      (BufferReach.enqueue
        (BufferReach.enqueue
          (BufferReach.enqueue (BufferReach.init 2) 1 [1] "t" 1)
          2 [2] "t" 1)
        3 [3] "t" 1)
      (fun i _ => i == 0))

end CXDB

namespace CXDB

/-! ## TCP client connection state (`protocol.py`: `CXDBTcpClient`)

The client's observable state: the `_connected` flag, whether
`_reader`/`_writer` are set, and the request counter.  What the network does
during one `_send_and_recv` exchange is an explicit outcome value. -/

/-- `MSG_ERROR = 255`. -/
def MSG_ERROR : Nat := 255

/-- Connection-state fields of `CXDBTcpClient`. -/
structure TcpClient where
  connected : Bool
  has_stream : Bool
  request_id : Nat
deriving DecidableEq

/-- What the socket does during one request/response exchange: a complete
response frame arrives, the response read times out
(`asyncio.TimeoutError`), the socket closes mid-read
(`asyncio.IncompleteReadError`), or an OS-level failure such as a
connection reset occurs (`OSError`). -/
inductive NetOutcome where
  | response (msg_type : Nat) (payload : List Nat)
  | timeout
  | closedMidRead
  | osError
deriving DecidableEq

/-- The error kinds raised by the client: `ConnectionError` and
`CXDBProtocolError`. -/
inductive ClientErr where
  | connectionError (msg : String)
  | protocolError (msg : String)
deriving DecidableEq

/-- `CXDBTcpClient._send_and_recv`: fail when no stream is present;
otherwise allocate the next request id, send, and read the response.  A
timeout raises `ConnectionError` *without touching `_connected`*; a closed
socket or `OSError` sets `_connected = False` and raises `ConnectionError`;
a `MSG_ERROR` response raises `CXDBProtocolError` with the connection state
unaffected. -/
def send_and_recv (c : TcpClient) (net : NetOutcome) :
    Except ClientErr (List Nat) × TcpClient :=
  if ¬c.has_stream then
    (.error (.connectionError "Not connected to CXDB"), c)
  else
    let c2 := { c with request_id := c.request_id + 1 }
    match net with
    | .timeout =>
        (.error (.connectionError "CXDB response timeout"), c2)
    | .closedMidRead =>
        (.error (.connectionError "CXDB connection lost"),
         { c2 with connected := false })
    | .osError =>
        (.error (.connectionError "CXDB connection lost"),
         { c2 with connected := false })
    | .response t payload =>
        if t = MSG_ERROR then
          (.error (.protocolError "CXDB error"), c2)
        else (.ok payload, c2)

/-- What the socket-open step of `connect` does: refused / unreachable
(`OSError`), open timeout (`asyncio.TimeoutError`), or an open stream whose
HELLO exchange then behaves like `net`. -/
inductive ConnectOutcome where
  | refused
  | openTimeout
  | opened (net : NetOutcome)
deriving DecidableEq

/-- `CXDBTcpClient.connect`: a failed open raises `ConnectionError` (state
untouched); on success the HELLO exchange runs through `_send_and_recv`,
and only when it succeeds is `_connected` set to `True`. -/
def connect (c : TcpClient) (o : ConnectOutcome) :
    Except ClientErr Unit × TcpClient :=
  match o with
  | .refused => (.error (.connectionError "Failed to connect to CXDB"), c)
  | .openTimeout => (.error (.connectionError "Failed to connect to CXDB"), c)
  | .opened net =>
      let c2 := { c with has_stream := true }
      match send_and_recv c2 net with
      | (.ok _, c3) => (.ok (), { c3 with connected := true })
      | (.error e, c3) => (.error e, c3)

/-- **C3 counterexample** — the claim fails for a response timeout: on a
connected client, a timed-out exchange raises a connection error but leaves
`connected = true` (the timeout branch of `_send_and_recv` does not clear
`_connected`, unlike the `IncompleteReadError`/`OSError` branch). -/
theorem send_timeout_counterexample :
    (send_and_recv { connected := true, has_stream := true, request_id := 0 }
        NetOutcome.timeout).2.connected = true ∧
      (send_and_recv { connected := true, has_stream := true, request_id := 0 }
        NetOutcome.timeout).1 =
        .error (.connectionError "CXDB response timeout") :=
  ⟨rfl, rfl⟩

/-- **C3 (amended)** — Connection-failure state transitions: the socket
closing mid-read and OS-level failures (reset) always leave
`connected = false` and surface as connection errors; a refused or
timed-out `connect` on a disconnected client leaves it disconnected and
raises a connection error; a *response timeout*, however, raises a
connection error while leaving the `connected` flag unchanged. -/
theorem connection_failure_state :
    (∀ c : TcpClient, c.has_stream = true →
      ((send_and_recv c NetOutcome.closedMidRead).2.connected = false ∧
        (send_and_recv c NetOutcome.closedMidRead).1 =
          .error (.connectionError "CXDB connection lost")) ∧
      ((send_and_recv c NetOutcome.osError).2.connected = false ∧
        (send_and_recv c NetOutcome.osError).1 =
          .error (.connectionError "CXDB connection lost"))) ∧
    (∀ c : TcpClient, c.connected = false →
      (connect c ConnectOutcome.refused).2.connected = false ∧
        (connect c ConnectOutcome.openTimeout).2.connected = false ∧
        (connect c ConnectOutcome.refused).1 =
          .error (.connectionError "Failed to connect to CXDB")) ∧
    (∀ c : TcpClient, c.has_stream = true →
      (send_and_recv c NetOutcome.timeout).2.connected = c.connected ∧
        (send_and_recv c NetOutcome.timeout).1 =
          .error (.connectionError "CXDB response timeout")) := by
  refine ⟨?_, ?_, ?_⟩
  · intro c h
    simp [send_and_recv, h]
  · intro c h
    simp [connect, h]
  · intro c h
    simp [send_and_recv, h]

/-- Witness for the amended C3: a reset on a concrete connected client
leaves it disconnected. -/
theorem connection_failure_state_witness :
    (send_and_recv { connected := true, has_stream := true, request_id := 5 }
        NetOutcome.osError).2.connected = false :=
  ((connection_failure_state.1
    { connected := true, has_stream := true, request_id := 5 } rfl).2).1

end CXDB

namespace CXDB

/-! ## Event router (`hook.py`: `CXDBEventHook.handle_event`)

The handler body is one `try:` whose `except Exception` returns the same
`HookResult(action="continue")` as the success path.  Each operation the
body invokes on the hook's components (client, buffer, accumulator, dedup)
is an oracle: an arbitrary state transformer that may also raise, so the
theorems quantify over every behaviour of those components. -/

/-- `HookResult` (with the testing fallback class of `hook.py`, only the
`action` field matters). -/
structure HookResult where
  action : String
deriving DecidableEq

/-- `HookResult(action="continue")`. -/
def continueResult : HookResult := { action := "continue" }

/-- `_TURN_EVENTS`: the events fed to the turn accumulator. -/
def TURN_EVENTS : List String :=
  ["prompt:submit", "content_block:end", "tool:pre", "tool:post",
   "provider:request", "provider:response", "orchestrator:complete",
   "execution:end"]

/-- The outcome of one sub-operation: a value in a new state, or a raised
exception carrying the state mutated so far. -/
inductive Step (σ ε α : Type) where
  | ok (s : σ) (a : α)
  | err (s : σ) (e : ε)

/-- The operations `handle_event` invokes, as oracles over the hook state. -/
structure HookOps (σ ε δ : Type) where
  is_initialized : σ → Bool
  run_init : σ → Step σ ε Unit
  should_process : σ → String → Step σ ε Bool
  is_straggler : σ → String → Step σ ε Bool
  handle_turn_event : σ → String → δ → Step σ ε Unit
  write_to_everything_context : σ → String → δ → Step σ ε Unit
  flush_turns : σ → Step σ ε Unit

/-- `CXDBEventHook.handle_event(event, data)`: lazy initialization, variant
dedup (silent stop), straggler suppression (silent stop), routing of
turn-relevant events to the accumulator, the unconditional write to the
everything context, and the accumulator flush on `orchestrator:complete` —
all inside one `try` whose `except` returns `HookResult(action="continue")`
exactly like every other path. -/
def handle_event (ops : HookOps σ ε δ) (s : σ) (event : String) (data : δ) :
    HookResult × σ :=
  let body : Step σ ε Unit :=
    match if ops.is_initialized s then Step.ok s () else ops.run_init s with
    | .err s1 e => .err s1 e
    | .ok s1 _ =>
      match ops.should_process s1 event with
      | .err s2 e => .err s2 e
      | .ok s2 false => .ok s2 ()
      | .ok s2 true =>
        match ops.is_straggler s2 event with
        | .err s3 e => .err s3 e
        | .ok s3 true => .ok s3 ()
        | .ok s3 false =>
          match
            if TURN_EVENTS.contains event then
              ops.handle_turn_event s3 event data
            else Step.ok s3 () with
          | .err s4 e => .err s4 e
          | .ok s4 _ =>
            match ops.write_to_everything_context s4 event data with
            | .err s5 e => .err s5 e
            | .ok s5 _ =>
              if event == "orchestrator:complete" then
                match ops.flush_turns s5 with
                | .err s6 e => .err s6 e
                | .ok s6 _ => .ok s6 ()
              else .ok s5 ()
  match body with
  | .ok sF _ => (continueResult, sF)
  | .err sF _ => (continueResult, sF)

/-- **C1** — For every hook state, every event name and data, and every
behaviour of the underlying components (any of them raising included),
`handle_event` returns the `continue` outcome; its total return type is the
formal counterpart of "never propagates an exception to its caller". -/
theorem handle_event_always_continues {σ ε δ : Type} (ops : HookOps σ ε δ)
    (s : σ) (event : String) (data : δ) :
    (handle_event ops s event data).1 = continueResult := by
  unfold handle_event
  dsimp only
  split
  · rfl
  · rfl

end CXDB

namespace CXDB

/-! ## Concrete event router state (`hook.py` with `turns.py` components)

The concrete instantiation of `handle_event`'s operations.  Client RPCs and
the registry-publish HTTP call are driven by an outcome script (an arbitrary
behaviour of the external store).  The three record builders
(`build_context_metadata`, `build_event_as_system_item`,
`to_conversation_items`) stamp wall-clock timestamps, so they enter the
model as function parameters quantified in the theorems. -/

/-- One conversational exchange (`AccumulatedTurn`). -/
structure AccumulatedTurn where
  user_prompt : Option String := none
  assistant_text_blocks : List String := []
  tool_calls : List ToolCallRecord := []
  metrics : Option Metrics := none
  agent_name : Option String := none
  finish_reason : Option String := none
deriving DecidableEq

/-- `TurnAccumulator` state: the current exchange and the
post-execution-straggler flag (the `_request_start_mono` instant is
time-based and only feeds the excluded `duration_ms` metric). -/
structure TurnAccumulator where
  current : AccumulatedTurn := {}
  execution_ended : Bool := false
deriving DecidableEq

/-- A `content_block:end` block value: a plain (non-dict) value, or a dict
carrying its own `type` and `text` fields. -/
inductive PyBlock where
  | plain (s : String)
  | obj (btype : Option String) (btext : Option String)
deriving DecidableEq

/-- The event-data fields the router and accumulator read. -/
structure EventData where
  prompt : Option String := none
  tool_name : String := "unknown"
  tool_input_str : String := "{}"
  call_id : Option String := none
  result : Option String := none
  error : Option String := none
  block_type : Option String := none
  block : Option PyBlock := none
  usage : Usage := []
  model : Option String := none
  provider : Option String := none
deriving DecidableEq

/-- `on_prompt_submit`: buffer the prompt (superseding any prior value) and
clear the execution-ended flag; a missing prompt changes nothing. -/
def on_prompt_submit (acc : TurnAccumulator) (prompt : Option String) :
    TurnAccumulator :=
  match prompt with
  | none => acc
  | some p =>
      { acc with current := { acc.current with user_prompt := some p },
                 execution_ended := false }

/-- `on_content_block_end`: accept the two block layouts, keep only
non-empty text of `text`-typed blocks. -/
def on_content_block_end (acc : TurnAccumulator) (block_type : Option String)
    (block : Option PyBlock) : TurnAccumulator :=
  let bt := match block_type with
    | some t => some t
    | none =>
        match block with
        | some (.obj t _) => t
        | _ => none
  if bt ≠ some "text" then acc
  else
    let text : Option String := match block with
      | some (.obj _ t) => some (t.getD "")
      | some (.plain s) => some s
      | none => none
    match text with
    | none => acc
    | some t =>
        if t ≠ "" then
          let blocks := acc.current.assistant_text_blocks ++ [t]
          { acc with current :=
              { acc.current with assistant_text_blocks := blocks } }
        else acc

/-- `CXDBEventHook._handle_turn_event`: dispatch to the accumulator
callbacks (`provider:request` only records a monotonic instant and is a
no-op on the modelled state). -/
def accumulator_handle (acc : TurnAccumulator) (event : String)
    (d : EventData) : TurnAccumulator :=
  if event == "prompt:submit" then on_prompt_submit acc d.prompt
  else if event == "content_block:end" then
    on_content_block_end acc d.block_type d.block
  else if event == "tool:pre" then
    let tc := on_tool_pre acc.current.tool_calls d.tool_name
      d.tool_input_str d.call_id
    { acc with current := { acc.current with tool_calls := tc } }
  else if event == "tool:post" then
    let tc := on_tool_post acc.current.tool_calls d.tool_name d.call_id
      d.result d.error
    { acc with current := { acc.current with tool_calls := tc } }
  else if event == "provider:request" then acc
  else if event == "provider:response" then
    match on_provider_response d.usage d.model d.provider with
    | some m => { acc with current := { acc.current with metrics := some m } }
    | none => acc
  else if event == "execution:end" then { acc with execution_ended := true }
  else acc

/-- `TurnAccumulator.is_straggler`: suppress `llm:*` events after
`execution:end`. -/
def TurnAccumulator.is_straggler (acc : TurnAccumulator)
    (event : String) : Bool :=
  if !acc.execution_ended then false else event.startsWith "llm:"

/-- `TurnAccumulator.flush`: return the exchange (or nothing when it holds
no prompt, no text and no tool calls) and reset. -/
def TurnAccumulator.flush (acc : TurnAccumulator) :
    Option AccumulatedTurn × TurnAccumulator :=
  let turn := acc.current
  let has_data := turn.user_prompt.isSome ||
    !turn.assistant_text_blocks.isEmpty || !turn.tool_calls.isEmpty
  (if has_data then some turn else none, {})

/-- Outcome of one client RPC (or of opening the connection): success with
a result value (the new context id where one is returned), an exception
that leaves the connection state alone (protocol error, response timeout),
or an exception that drops the connection (reset, socket closed mid-read). -/
inductive RpcOutcome where
  | ok (v : Nat)
  | errKeep
  | errDrop
deriving DecidableEq

/-- The hook's view of its `CXDBTcpClient`: the connected flag and the
script of outcomes the store will produce for successive RPCs. -/
structure HookClient where
  connected : Bool
  script : List RpcOutcome
deriving DecidableEq

/-- Consume the next scripted outcome (an exhausted script keeps failing). -/
def HookClient.next (c : HookClient) : RpcOutcome × HookClient :=
  match c.script with
  | [] => (.errKeep, c)
  | r :: rest => (r, { c with script := rest })

/-- Observable store interactions of one router: successful appends and
buffer enqueues. -/
inductive HookEff where
  | appended (context_id : Nat) (item : List (Nat × Val))
  | enqueued (context_id : Nat) (bytes : List Nat) (type_id : String)

/-- Per-hook-instance state of `CXDBEventHook` (plus the effect trace). -/
structure HookState where
  initialized : Bool
  registry_published : Bool
  turns_context_id : Option Nat
  everything_context_id : Option Nat
  client : HookClient
  publish_ok : Bool
  buffer : EventBuffer
  acc : TurnAccumulator
  dedup : EventName → Option (Nat × EventName)
  effects : List HookEff

/-- `CXDBEventHook._write_turn`: when connected, try `append_turn` and on
any exception serialize and enqueue; when not connected, serialize and
enqueue directly.  Never raises. -/
def hook_write_turn (s : HookState) (context_id : Nat)
    (item : List (Nat × Val)) (type_id : String) (type_version : Nat) :
    HookState :=
  if s.client.connected then
    match s.client.next with
    | (.ok _, c2) =>
        { s with client := c2,
                 effects := s.effects ++ [.appended context_id item] }
    | (.errKeep, c2) =>
        let bytes := serialize_envelope item
        { s with client := c2,
                 buffer := s.buffer.enqueue context_id bytes type_id,
                 effects := s.effects ++ [.enqueued context_id bytes type_id] }
    | (.errDrop, c2) =>
        let bytes := serialize_envelope item
        { s with client := { c2 with connected := false },
                 buffer := s.buffer.enqueue context_id bytes type_id,
                 effects := s.effects ++ [.enqueued context_id bytes type_id] }
  else
    let bytes := serialize_envelope item
    { s with buffer := s.buffer.enqueue context_id bytes type_id,
             effects := s.effects ++ [.enqueued context_id bytes type_id] }

/-- `CXDBEventHook.initialize`: connect if needed, publish the registry
bundle (best effort), create the two contexts, write a context-metadata
record to each, and only then set `initialized`.  Any client exception is
caught, leaving `initialized = false` and all mutations so far in place.
`metaItem` stands for the time-stamped `build_context_metadata` result per
context label. -/
def hook_init (metaItem : String → List (Nat × Val)) (s : HookState) :
    HookState :=
  if s.initialized then s
  else
    let conn :=
      if !s.client.connected then
        match s.client.next with
        | (.ok _, c2) => (some { s with client := { c2 with connected := true } },
                          (none : Option HookState))
        | (.errKeep, c2) => (none, some { s with client := c2 })
        | (.errDrop, c2) =>
            (none, some { s with client := { c2 with connected := false } })
      else (some s, none)
    match conn with
    | (none, some sFail) => sFail
    | (some sc, _) =>
        let spub :=
          if !sc.registry_published then
            if sc.publish_ok then { sc with registry_published := true }
            else sc
          else sc
        match spub.client.next with
        | (.errKeep, c2) => { spub with client := c2 }
        | (.errDrop, c2) =>
            { spub with client := { c2 with connected := false } }
        | (.ok turnsId, c2) =>
            let s1 :=
              { spub with client := c2, turns_context_id := some turnsId }
            match s1.client.next with
            | (.errKeep, c3) => { s1 with client := c3 }
            | (.errDrop, c3) =>
                { s1 with client := { c3 with connected := false } }
            | (.ok evId, c3) =>
                let s2 :=
                  { s1 with client := c3,
                            everything_context_id := some evId }
                let s3 := hook_write_turn s2 turnsId (metaItem "Turns")
                  "cxdb.ConversationItem" 3
                let s4 := hook_write_turn s3 evId (metaItem "Events")
                  "cxdb.ConversationItem" 3
                { s4 with initialized := true }
    | (none, none) => s

/-- `CXDBEventHook._write_to_everything_context`: silently return when the
everything context id is unset; otherwise wrap the event and write it.
`eventItem` — Modelled from the spec: `build_event_as_system_item` is
imported by `hook.py` but absent from the source tree; per the spec it
wraps the raw event name and data into the common envelope (with a
two-pass size stamp and a fresh timestamp), so the embedding abstracts it
as a parameter producing the record for an occurrence. -/
def hook_write_everything (eventItem : String → EventData → List (Nat × Val))
    (s : HookState) (event : String) (d : EventData) : HookState :=
  match s.everything_context_id with
  | none => s
  | some ctx =>
      hook_write_turn s ctx (eventItem event d) "cxdb.ConversationItem" 3

/-- `CXDBEventHook._flush_turns`: flush the accumulator (always resetting
it) and, when there is an exchange and a turns context, write each
conversation item.  `toItems` stands for the time-stamped
`to_conversation_items`. -/
def hook_flush_turns (toItems : AccumulatedTurn → List (List (Nat × Val)))
    (s : HookState) : HookState :=
  let p := s.acc.flush
  let s2 := { s with acc := p.2 }
  match p.1, s2.turns_context_id with
  | some turn, some ctx =>
      (toItems turn).foldl
        (fun st item => hook_write_turn st ctx item "cxdb.ConversationItem" 3)
        s2
  | _, _ => s2

/-- The concrete operations of `CXDBEventHook`, plugged into
`handle_event`.  All of them are total: `initialize` and `_write_turn`
catch their exceptions internally, and dedup, straggler check and the
accumulator callbacks are pure. -/
def concreteOps (metaItem : String → List (Nat × Val))
    (eventItem : String → EventData → List (Nat × Val))
    (toItems : AccumulatedTurn → List (List (Nat × Val))) :
    HookOps HookState Empty EventData where
  is_initialized s := s.initialized
  run_init s := .ok (hook_init metaItem s) ()
  should_process s e := .ok s (CXDB.should_process s.dedup e.toList)
  is_straggler s e := .ok s (s.acc.is_straggler e)
  handle_turn_event s e d := .ok { s with acc := accumulator_handle s.acc e d } ()
  write_to_everything_context s e d := .ok (hook_write_everything eventItem s e d) ()
  flush_turns s := .ok (hook_flush_turns toItems s) ()

/-- `handle_event` of the concrete hook. -/
def hook_handle_event (metaItem : String → List (Nat × Val))
    (eventItem : String → EventData → List (Nat × Val))
    (toItems : AccumulatedTurn → List (List (Nat × Val)))
    (s : HookState) (event : String) (d : EventData) :
    HookResult × HookState :=
  handle_event (concreteOps metaItem eventItem toItems) s event d

end CXDB

namespace CXDB

theorem hook_write_turn_effects (s : HookState) (ctx : Nat)
    (item : List (Nat × Val)) (tid : String) (tver : Nat) :
    (hook_write_turn s ctx item tid tver).effects =
        s.effects ++ [.appended ctx item] ∨
      (hook_write_turn s ctx item tid tver).effects =
        s.effects ++ [.enqueued ctx (serialize_envelope item) tid] := by
  unfold hook_write_turn
  cases hc : s.client.connected with
  | false => simp
  | true =>
      rcases hn : s.client.next with ⟨o, c2⟩
      cases o with
      | ok v => simp [hn]
      | errKeep => simp [hn]
      | errDrop => simp [hn]

theorem foldl_write_turn_effects (ctx : Nat) (tid : String) (tver : Nat) :
    ∀ (items : List (List (Nat × Val))) (s : HookState), ∃ t,
      (items.foldl (fun st item => hook_write_turn st ctx item tid tver)
        s).effects = s.effects ++ t := by
  intro items
  induction items with
  | nil => intro s; exact ⟨[], by simp⟩
  | cons it rest ih =>
      intro s
      obtain ⟨t, ht⟩ := ih (hook_write_turn s ctx it tid tver)
      rw [List.foldl_cons]
      rcases hook_write_turn_effects s ctx it tid tver with h | h
      · exact ⟨[.appended ctx it] ++ t, by rw [ht, h, List.append_assoc]⟩
      · exact ⟨[.enqueued ctx (serialize_envelope it) tid] ++ t,
          by rw [ht, h, List.append_assoc]⟩

theorem hook_flush_turns_effects
    (toItems : AccumulatedTurn → List (List (Nat × Val))) (s : HookState) :
    ∃ t, (hook_flush_turns toItems s).effects = s.effects ++ t := by
  unfold hook_flush_turns
  dsimp only
  rcases hf : s.acc.flush with ⟨turnOpt, acc2⟩
  simp only [hf]
  cases turnOpt with
  | none => exact ⟨[], by simp⟩
  | some turn =>
      cases hctx : s.turns_context_id with
      | none =>
          have hrw : ({ s with acc := acc2 } : HookState).turns_context_id =
              none := hctx
          exact ⟨[], by simp [hrw]⟩
      | some ctx =>
          obtain ⟨t, ht⟩ := foldl_write_turn_effects ctx
            "cxdb.ConversationItem" 3 (toItems turn) { s with acc := acc2 }
          have hrw : ({ s with acc := acc2 } : HookState).turns_context_id =
              some ctx := hctx
          refine ⟨t, ?_⟩
          simp only [hrw]
          rw [hctx] at ht
          simpa using ht

/-- **C2 (amended)** — For every event that `handle_event` processes past
deduplication and straggler suppression, *provided initialization has
succeeded* (the everything context exists), the record built for the
occurrence is either successfully appended to the everything context or
enqueued into the retry buffer — a write failure always ends in the record
being buffered.  (When initialization has not succeeded the everything
context id is null and `_write_to_everything_context` silently drops the
record — see the counterexample.) -/
theorem handle_event_everything_write
    (metaItem : String → List (Nat × Val))
    (eventItem : String → EventData → List (Nat × Val))
    (toItems : AccumulatedTurn → List (List (Nat × Val)))
    (s : HookState) (event : String) (d : EventData) (ctx : Nat)
    (hinit : s.initialized = true)
    (hctx : s.everything_context_id = some ctx)
    (hdedup : CXDB.should_process s.dedup event.toList = true)
    (hstrag : s.acc.is_straggler event = false) :
    HookEff.appended ctx (eventItem event d) ∈
        (hook_handle_event metaItem eventItem toItems s event d).2.effects ∨
      HookEff.enqueued ctx (serialize_envelope (eventItem event d))
          "cxdb.ConversationItem" ∈
        (hook_handle_event metaItem eventItem toItems s event d).2.effects := by
  have hrun : (hook_handle_event metaItem eventItem toItems s event d).2 =
      (if event == "orchestrator:complete" then
        hook_flush_turns toItems
          (hook_write_everything eventItem
            (if event ∈ TURN_EVENTS then
              { s with acc := accumulator_handle s.acc event d }
            else s) event d)
      else
        hook_write_everything eventItem
          (if event ∈ TURN_EVENTS then
            { s with acc := accumulator_handle s.acc event d }
          else s) event d) := by
    unfold hook_handle_event handle_event concreteOps
    have hdedup2 : CXDB.should_process s.dedup event.data = true := hdedup
    by_cases hT : event ∈ TURN_EVENTS
    · by_cases hO : (event == "orchestrator:complete") = true
      · simp [hinit, hdedup2, hstrag, hT, hO]
      · simp [hinit, hdedup2, hstrag, hT, hO]
    · by_cases hO : (event == "orchestrator:complete") = true
      · simp [hinit, hdedup2, hstrag, hT, hO]
      · simp [hinit, hdedup2, hstrag, hT, hO]
  have hRctx :
      (if event ∈ TURN_EVENTS then
        { s with acc := accumulator_handle s.acc event d }
      else s).everything_context_id = some ctx := by
    by_cases hT : event ∈ TURN_EVENTS
    · simp [hT, hctx]
    · simp [hT, hctx]
  set sR := (if event ∈ TURN_EVENTS then
    { s with acc := accumulator_handle s.acc event d } else s) with hsR
  have hwe : hook_write_everything eventItem sR event d =
      hook_write_turn sR ctx (eventItem event d) "cxdb.ConversationItem" 3 := by
    unfold hook_write_everything
    rw [hRctx]
  have hmem :
      HookEff.appended ctx (eventItem event d) ∈
          (hook_write_everything eventItem sR event d).effects ∨
        HookEff.enqueued ctx (serialize_envelope (eventItem event d))
            "cxdb.ConversationItem" ∈
          (hook_write_everything eventItem sR event d).effects := by
    rw [hwe]
    rcases hook_write_turn_effects sR ctx (eventItem event d)
        "cxdb.ConversationItem" 3 with h | h
    · left
      rw [h]
      exact List.mem_append_right _ (List.mem_singleton_self _)
    · right
      rw [h]
      exact List.mem_append_right _ (List.mem_singleton_self _)
  rw [hrun]
  by_cases hO : (event == "orchestrator:complete") = true
  · rw [if_pos hO]
    obtain ⟨t, ht⟩ :=
      hook_flush_turns_effects toItems (hook_write_everything eventItem sR event d)
    rcases hmem with h | h
    · left
      rw [ht]
      exact List.mem_append_left _ h
    · right
      rw [ht]
      exact List.mem_append_left _ h
  · rw [if_neg (by simpa using hO)]
    exact hmem

/-- **C2 counterexample** — the claim as stated fails when initialization
has not succeeded: on a fresh hook whose connect attempt fails, the event
`user:notification` passes deduplication and straggler suppression, yet
`handle_event` neither appends nor buffers any record (the effect trace and
the retry buffer both stay empty): the occurrence is silently dropped
because the everything context id is still null. -/
theorem handle_event_drop_counterexample :
    CXDB.should_process (build_variant_map []) "user:notification".toList
        = true ∧
      TurnAccumulator.is_straggler {} "user:notification" = false ∧
      (hook_handle_event (fun _ => []) (fun _ _ => [(1, Val.int 1)])
        (fun _ => [])
        { initialized := false, registry_published := false,
          turns_context_id := none, everything_context_id := none,
          client := { connected := false, script := [RpcOutcome.errKeep] },
          publish_ok := false, buffer := EventBuffer.init 1000, acc := {},
          dedup := build_variant_map [], effects := [] }
        "user:notification" {}).2.effects = [] ∧
      (hook_handle_event (fun _ => []) (fun _ _ => [(1, Val.int 1)])
        (fun _ => [])
        { initialized := false, registry_published := false,
          turns_context_id := none, everything_context_id := none,
          client := { connected := false, script := [RpcOutcome.errKeep] },
          publish_ok := false, buffer := EventBuffer.init 1000, acc := {},
          dedup := build_variant_map [], effects := [] }
        "user:notification" {}).2.buffer.buffer = [] ∧
      (hook_handle_event (fun _ => []) (fun _ _ => [(1, Val.int 1)])
        (fun _ => [])
        { initialized := false, registry_published := false,
          turns_context_id := none, everything_context_id := none,
          client := { connected := false, script := [RpcOutcome.errKeep] },
          publish_ok := false, buffer := EventBuffer.init 1000, acc := {},
          dedup := build_variant_map [], effects := [] }
        "user:notification" {}).1 = continueResult :=
  ⟨by decide, rfl, rfl, rfl, rfl⟩

/-- Witness for the amended C2: on an initialized but disconnected hook the
everything-record is enqueued into the retry buffer. -/
theorem handle_event_everything_write_witness :
    HookEff.appended 9 [(1, Val.int 2)] ∈
        (hook_handle_event (fun _ => []) (fun _ _ => [(1, Val.int 2)])
          (fun _ => [])
          { initialized := true, registry_published := true,
            turns_context_id := some 8, everything_context_id := some 9,
            client := { connected := false, script := [] },
            publish_ok := true, buffer := EventBuffer.init 1000, acc := {},
            dedup := build_variant_map [], effects := [] }
          "user:notification" {}).2.effects ∨
      HookEff.enqueued 9 (serialize_envelope [(1, Val.int 2)])
          "cxdb.ConversationItem" ∈
        (hook_handle_event (fun _ => []) (fun _ _ => [(1, Val.int 2)])
          (fun _ => [])
          { initialized := true, registry_published := true,
            turns_context_id := some 8, everything_context_id := some 9,
            client := { connected := false, script := [] },
            publish_ok := true, buffer := EventBuffer.init 1000, acc := {},
            dedup := build_variant_map [], effects := [] }
          "user:notification" {}).2.effects :=
  handle_event_everything_write (fun _ => []) (fun _ _ => [(1, Val.int 2)])
    (fun _ => [])
    { initialized := true, registry_published := true,
      turns_context_id := some 8, everything_context_id := some 9,
      client := { connected := false, script := [] },
      publish_ok := true, buffer := EventBuffer.init 1000, acc := {},
      dedup := build_variant_map [], effects := [] }
    "user:notification" {} 9 rfl rfl (by decide) rfl

end CXDB
